import Mathlib

/-!
# Verification of the penguins preprocessing pipeline

Shallow embedding of `preprocessing/automate_Rifky-Maulana.py`, a linear
ETL pipeline over a pandas DataFrame:

* `load_data`    — read a CSV, returning `None` plus a printed message on failure;
* `preprocess_penguins_data` — copy, `dropna`, label-encode the three
  categorical columns, standard-scale the four numeric columns;
* `save_processed_data` — write the table to CSV;
* `main`         — resolve the input path against a fallback list and run
  the stages in sequence, short-circuiting on failure.

A DataFrame is modelled row-major: a list of column names and a list of
rows, each row a list of cells; a cell is `Option Value` with `none`
playing the role of pandas' NaN/missing.  Numeric data is modelled with
`ℚ`.  `StandardScaler` divides by the standard deviation, an irrational
square root in general, so the scaling functions take a function
`sqrtQ : ℚ → ℚ` standing for the real square root; theorems about scaling
hypothesise `(sqrtQ v) ^ 2 = v` and `0 ≤ sqrtQ v` at the variances they
touch, and witnesses instantiate it on data whose variance is a perfect
square.  sklearn's `StandardScaler` computes the population variance
(ddof = 0) and replaces a zero scale by 1 (`_handle_zeros_in_scale`), so a
zero-variance column is mapped to all zeros rather than raising a
division-by-zero error; the embedding reproduces that guard.
-/

/-- A scalar cell value: a string or a (rational-modelled) number. -/
inductive Value where
  | str (s : String)
  | num (q : ℚ)
deriving DecidableEq, Repr

/-- A cell of the table; `none` is pandas' missing value (NaN). -/
abbrev Cell := Option Value

/-- Row-major DataFrame: column names plus rows of cells. -/
structure DataFrame where
  cols : List String
  rows : List (List Cell)
deriving DecidableEq, Repr

/-- The empty frame, used as the junk default when dereferencing. -/
def DataFrame.empty : DataFrame := ⟨[], []⟩

/-- Well-formedness: every row has exactly one cell per column. -/
def DataFrame.WF (df : DataFrame) : Prop :=
  ∀ r ∈ df.rows, r.length = df.cols.length

instance (df : DataFrame) : Decidable df.WF :=
  inferInstanceAs (Decidable (∀ r ∈ df.rows, r.length = df.cols.length))

/-- `df.isnull().sum().sum()`: the total number of missing cells. -/
def countMissing (df : DataFrame) : Nat :=
  (df.rows.map (fun r => r.countP (fun c => c.isNone))).sum

/-- Whether a row contains at least one missing cell. -/
def rowHasNA (r : List Cell) : Bool := r.any (fun c => c.isNone)

/-- `df.dropna()`: drop every row containing a missing cell. -/
def dropna (df : DataFrame) : DataFrame :=
  ⟨df.cols, df.rows.filter (fun r => !rowHasNA r)⟩

/-- Column lookup (`df[c]`) as the list of that column's cells. -/
def getCol (df : DataFrame) (c : String) : List Cell :=
  df.rows.map (fun r => r.getD (df.cols.indexOf c) none)

/-- `df[c] = vals`: pandas overwrites an existing column in place and
appends a new column at the right end otherwise. -/
def assignCol (df : DataFrame) (c : String) (vals : List Cell) : DataFrame :=
  if c ∈ df.cols then
    ⟨df.cols, df.rows.zipWith (fun r v => r.set (df.cols.indexOf c) v) vals⟩
  else
    ⟨df.cols ++ [c], df.rows.zipWith (fun r v => r ++ [v]) vals⟩

/-- `df[cs]`: the sub-frame on a list of columns. -/
def selectCols (df : DataFrame) (cs : List String) : DataFrame :=
  ⟨cs, df.rows.map (fun r => cs.map (fun c => r.getD (df.cols.indexOf c) none))⟩

/-- String content of a cell (categorical columns hold strings). -/
def cellStr (c : Cell) : String :=
  match c with
  | some (Value.str s) => s
  | _ => ""

/-- Numeric content of a cell (numeric columns hold numbers). -/
def cellNum (c : Cell) : ℚ :=
  match c with
  | some (Value.num q) => q
  | _ => 0

/-- A cell holding an integer code. -/
def natCell (n : Nat) : Cell := some (Value.num n)

/-- A cell holding a scaled number. -/
def ratCell (q : ℚ) : Cell := some (Value.num q)

/-! ## LabelEncoder

`LabelEncoder().fit_transform(xs)` stores `classes_ = np.unique(xs)` — the
distinct values in ascending order — and maps each value to its position
in that sorted list. -/

/-- `classes_`: the distinct values of the column in ascending order. -/
def labelClasses (xs : List String) : List String :=
  List.insertionSort (· ≤ ·) xs.dedup

/-- The integer code of one value: its index in `classes_`. -/
def labelCode (xs : List String) (v : String) : Nat :=
  (labelClasses xs).indexOf v

/-- `LabelEncoder().fit_transform(xs)`. -/
def labelTransform (xs : List String) : List Nat :=
  xs.map (labelCode xs)

/-! ## StandardScaler

`StandardScaler().fit_transform` centers each column at its mean and
divides by the population standard deviation `sqrt(var)`; a zero scale is
replaced by 1 (`sklearn.preprocessing._data._handle_zeros_in_scale`), so a
constant column maps to zeros instead of dividing by zero. -/

/-- Column mean. -/
def listMean (xs : List ℚ) : ℚ := xs.sum / xs.length

/-- Population variance (ddof = 0), as `StandardScaler` computes it. -/
def listVar (xs : List ℚ) : ℚ :=
  ((xs.map (fun x => (x - listMean xs) ^ 2)).sum) / xs.length

/-- sklearn's `_handle_zeros_in_scale`: a zero scale becomes 1. -/
def handleZerosInScale (s : ℚ) : ℚ := if s = 0 then 1 else s

/-- One column of `StandardScaler().fit_transform`, with `sqrtQ` standing
for the real square root used to form the standard deviation. -/
def standardizeCol (sqrtQ : ℚ → ℚ) (xs : List ℚ) : List ℚ :=
  let mu := listMean xs
  let sigma := handleZerosInScale (sqrtQ (listVar xs))
  xs.map (fun x => (x - mu) / sigma)

/-! ## preprocess_penguins_data -/

/-- Encode column `src` of `d` and assign the codes to column `dst`
(`d[dst] = LabelEncoder().fit_transform(d[src])`). -/
def encodeStep (d : DataFrame) (src dst : String) : DataFrame :=
  assignCol d dst ((labelTransform ((getCol d src).map cellStr)).map natCell)

/-- Standard-scale column `c` of `d` in place. -/
def scaleStep (sqrtQ : ℚ → ℚ) (d : DataFrame) (c : String) : DataFrame :=
  assignCol d c ((standardizeCol sqrtQ ((getCol d c).map cellNum)).map ratCell)

/-- The four numeric feature columns scaled by the source. -/
def numerical_features : List String :=
  ["bill_length_mm", "bill_depth_mm", "flipper_length_mm", "body_mass_g"]

/-- `preprocess_penguins_data(df)`: copy, `dropna`, add the three encoded
columns, scale the numeric features; returns `(X, y, df_processed)`.
`df_processed[numerical_features] = scaler.fit_transform(...)` fits each
column independently, which the embedding renders as one `scaleStep` per
column (the four column names are distinct, so the order is immaterial). -/
def preprocess_penguins_data (sqrtQ : ℚ → ℚ) (df : DataFrame) :
    DataFrame × List Cell × DataFrame :=
  let d1 := dropna df
  let d2 := encodeStep d1 "species" "species_encoded"
  let d3 := encodeStep d2 "island" "island_encoded"
  let d4 := encodeStep d3 "sex" "sex_encoded"
  let d5 := numerical_features.foldl (scaleStep sqrtQ) d4
  let feature_columns := numerical_features ++ ["island_encoded", "sex_encoded"]
  (selectCols d5 feature_columns, getCol d5 "species_encoded", d5)

/-! ## load_data / save_processed_data / main -/

/-- What `pd.read_csv` can do at a path: succeed, raise
`FileNotFoundError`, or raise some other exception with a message. -/
inductive ReadOutcome where
  | ok (df : DataFrame)
  | fileNotFound
  | otherError (e : String)
deriving DecidableEq, Repr

/-- The message printed when the file is missing. -/
def msgNotFound (path : String) : String := "File " ++ path ++ " not found!"

/-- The message printed on any other read error. -/
def msgLoadError (e : String) : String := "Error loading data: " ++ e

/-- `load_data(file_path)`: the loaded frame (or `None`) paired with the
message the function prints. -/
def load_data (path : String) (r : ReadOutcome) : Option DataFrame × String :=
  match r with
  | ReadOutcome.ok df =>
      (some df, "Data loaded successfully. Shape: (" ++ toString df.rows.length
        ++ ", " ++ toString df.cols.length ++ ")")
  | ReadOutcome.fileNotFound => (none, msgNotFound path)
  | ReadOutcome.otherError e => (none, msgLoadError e)

/-- A CSV file as written by `to_csv(index=False)`: a header line of
column names and one record of cell texts per row. -/
structure CSVFile where
  header : List String
  records : List (List String)
deriving DecidableEq, Repr

/-- Render one cell for CSV output (missing cells print as empty). -/
def cellToString (c : Cell) : String :=
  match c with
  | none => ""
  | some (Value.str s) => s
  | some (Value.num q) => toString q

/-- `df.to_csv(output_path, index=False)` as the file it produces. -/
def to_csv (df : DataFrame) : CSVFile :=
  ⟨df.cols, df.rows.map (fun r => r.map cellToString)⟩

/-- `pd.read_csv` on a written file: the header gives the columns and each
record gives a row (cell texts re-parsed as values). -/
def read_csv (f : CSVFile) : DataFrame :=
  ⟨f.header, f.records.map (fun r => r.map (fun s => some (Value.str s)))⟩

/-- `save_processed_data(df, path)`: returns the `True`/`False` success
flag of the source together with the file written (if any); `writeOk`
models whether `to_csv` raises. -/
def save_processed_data (writeOk : Bool) (df : DataFrame) :
    Bool × Option CSVFile :=
  if writeOk then (true, some (to_csv df)) else (false, none)

/-- The hard-coded primary input path of `main`. -/
def raw_data_path : String := "../penguins_raw.csv"

/-- The hard-coded fallback paths of `main`, in the order tried. -/
def alternative_paths : List String :=
  ["penguins.csv", "../penguins.csv", "penguins_raw.csv"]

/-- Path resolution of `main`: take the primary path if it exists, else the
first existing fallback; `none` when nothing exists (the `for ... else`
branch that prints and returns). -/
def resolveRawPath (exists_ : String → Bool) : Option String :=
  if exists_ raw_data_path then some raw_data_path
  else alternative_paths.find? exists_

/-- What one run of `main` did: which path it settled on, which stages ran,
and the output file produced (if any). -/
structure MainResult where
  resolvedPath : Option String
  loadRan : Bool
  preprocessRan : Bool
  saveRan : Bool
  outputFile : Option CSVFile
deriving DecidableEq, Repr

/-- `main()`: resolve the path, load, preprocess, save — short-circuiting
when resolution or load fails.  `exists_` models `os.path.exists`, `read`
the filesystem's answer to `pd.read_csv`, `writeOk` whether `to_csv`
succeeds. -/
def main' (exists_ : String → Bool) (read : String → ReadOutcome)
    (writeOk : Bool) (sqrtQ : ℚ → ℚ) : MainResult :=
  match resolveRawPath exists_ with
  | none => ⟨none, false, false, false, none⟩
  | some p =>
      match (load_data p (read p)).1 with
      | none => ⟨some p, true, false, false, none⟩
      | some df =>
          let res := preprocess_penguins_data sqrtQ df
          let saved := save_processed_data writeOk res.2.2
          ⟨some p, true, true, true, saved.2⟩

/-! ## The mutation model for `preprocess_penguins_data`

The claim that the caller's frame is untouched is about Python object
identity, so the function body is replayed over an explicit store of
frames: `df.copy()` and `dropna()` allocate fresh cells, while the column
assignments of lines 38–47 write in place at the bound cell's index. -/

/-- The body of `preprocess_penguins_data` over a store of frames.  Takes
the store and the index of the caller's `df`; returns the final store and
the index bound to `df_processed`. -/
def preprocessProg (sqrtQ : ℚ → ℚ) (st : List DataFrame) (dfRef : Nat) :
    List DataFrame × Nat :=
  -- df_processed = df.copy()
  let st1 := st ++ [st.getD dfRef DataFrame.empty]
  let r1 := st.length
  -- df_processed = df_processed.dropna()  (rebinds the name to a new frame)
  let st2 := st1 ++ [dropna (st1.getD r1 DataFrame.empty)]
  let r2 := st1.length
  -- df_processed['species_encoded'] = ...  (in-place writes)
  let st3 := st2.set r2 (encodeStep (st2.getD r2 DataFrame.empty) "species" "species_encoded")
  let st4 := st3.set r2 (encodeStep (st3.getD r2 DataFrame.empty) "island" "island_encoded")
  let st5 := st4.set r2 (encodeStep (st4.getD r2 DataFrame.empty) "sex" "sex_encoded")
  let st6 := st5.set r2 (numerical_features.foldl (scaleStep sqrtQ) (st5.getD r2 DataFrame.empty))
  (st6, r2)

/-! ## Sample data for witnesses -/

/-- A three-row sample table with the source's schema; the last row has
missing cells and is dropped by `dropna`. -/
def sampleDF : DataFrame :=
  ⟨["species", "island", "bill_length_mm", "bill_depth_mm",
    "flipper_length_mm", "body_mass_g", "sex"],
   [[some (Value.str "Gentoo"), some (Value.str "Biscoe"),
     some (Value.num 41), some (Value.num 20), some (Value.num 183),
     some (Value.num 3752), some (Value.str "FEMALE")],
    [some (Value.str "Adelie"), some (Value.str "Torgersen"),
     some (Value.num 39), some (Value.num 18), some (Value.num 181),
     some (Value.num 3750), some (Value.str "MALE")],
    [some (Value.str "Adelie"), none, some (Value.num 40), none, none,
     none, none]]⟩

/-- The two complete rows of `sampleDF`: a table with no missing cells. -/
def cleanDF : DataFrame := dropna sampleDF

/-! ## C1: dropna row accounting -/

/-- C1: the clean step (`dropna`) keeps exactly the rows without missing
cells: the output row count is the input row count minus the number of
rows containing at least one missing field; when the input has no missing
values the row count is unchanged; and the cleaned table's missing-value
count is zero. -/
theorem dropna_row_count (df : DataFrame) :
    (dropna df).rows.length
        = df.rows.length - (df.rows.filter (fun r => rowHasNA r)).length
    ∧ (countMissing df = 0 → (dropna df).rows.length = df.rows.length)
    ∧ countMissing (dropna df) = 0 := by
  refine ⟨?_, ?_, ?_⟩
  · have h := List.length_eq_length_filter_add (l := df.rows)
      (fun r => rowHasNA r)
    simp only [dropna]
    omega
  · intro h0
    simp only [dropna]
    have hall : ∀ r ∈ df.rows, (!rowHasNA r) = true := by
      intro r hr
      have hrow : r.countP (fun c => c.isNone) = 0 := by
        have := (List.sum_eq_zero_iff).1 h0
        exact this _ (List.mem_map_of_mem _ hr)
      have hnone : ∀ c ∈ r, ¬(c.isNone = true) := List.countP_eq_zero.1 hrow
      have : rowHasNA r = false := by
        simp only [rowHasNA, List.any_eq_false]
        exact hnone
      simp [this]
    rw [List.filter_eq_self.2 hall]
  · apply List.sum_eq_zero
    intro x hx
    rcases List.mem_map.1 hx with ⟨r, hr, hxr⟩
    rcases List.mem_filter.1 hr with ⟨_, hkeep⟩
    have : rowHasNA r = false := by
      cases h : rowHasNA r
      · rfl
      · rw [h] at hkeep; exact absurd hkeep (by decide)
    have hnone : ∀ c ∈ r, ¬(c.isNone = true) := by
      intro c hc hcn
      have hbad : rowHasNA r = true := by
        simp only [rowHasNA, List.any_eq_true]
        exact ⟨c, hc, hcn⟩
      rw [hbad] at this
      cases this
    rw [← hxr]
    exact List.countP_eq_zero.2 hnone

/-- Witness for C1 at the concrete table `cleanDF`, which has no missing
values. -/
theorem dropna_row_count_witness :
    countMissing cleanDF = 0
    ∧ (dropna cleanDF).rows.length = cleanDF.rows.length :=
  ⟨by decide, (dropna_row_count cleanDF).2.1 (by decide)⟩

/-! ## C5: load failure signalling and short-circuit -/

/-- C5: for every path, `load_data` returns `None` (rather than raising)
on a missing file and on any other read error, printing a distinct message
for each; and whenever `load_data` returns `None`, `main` runs neither the
preprocess stage nor the save stage and writes no output. -/
theorem load_data_failure_short_circuit :
    (∀ p, (load_data p ReadOutcome.fileNotFound).1 = none
        ∧ (load_data p ReadOutcome.fileNotFound).2 = msgNotFound p)
    ∧ (∀ p e, (load_data p (ReadOutcome.otherError e)).1 = none
        ∧ (load_data p (ReadOutcome.otherError e)).2 = msgLoadError e)
    ∧ (∀ p e, msgNotFound p ≠ msgLoadError e)
    ∧ (∀ ex read w s p, resolveRawPath ex = some p →
        (load_data p (read p)).1 = none →
        main' ex read w s = ⟨some p, true, false, false, none⟩) := by
  refine ⟨fun p => ⟨rfl, rfl⟩, fun p e => ⟨rfl, rfl⟩, ?_, ?_⟩
  · intro p e h
    have h2 := congrArg String.data h
    simp only [msgNotFound, msgLoadError, String.data_append] at h2
    have h3 := congrArg List.head? h2
    simp [String.data] at h3
  · intro ex read w s p hres hload
    simp [main', hres, hload]

/-- Witness for C5: a filesystem where only the primary path exists but
reading it raises `FileNotFoundError`; `main` stops after the load stage. -/
theorem load_data_failure_short_circuit_witness :
    resolveRawPath (fun q => q == "../penguins_raw.csv")
        = some "../penguins_raw.csv"
    ∧ (load_data "../penguins_raw.csv"
        ((fun _ => ReadOutcome.fileNotFound) "../penguins_raw.csv")).1 = none
    ∧ main' (fun q => q == "../penguins_raw.csv")
        (fun _ => ReadOutcome.fileNotFound) true (fun q => q)
        = ⟨some "../penguins_raw.csv", true, false, false, none⟩ :=
  ⟨by decide, rfl,
    load_data_failure_short_circuit.2.2.2 _ _ _ _ _ (by decide) rfl⟩

/-! ## C6: fallback path resolution -/

/-- C6: when the primary path is absent, `main` resolves the input to the
first existing path of the fixed fallback list; when the primary and all
three fallbacks are absent it aborts before any stage runs and produces no
output file. -/
theorem main_fallback_resolution (ex : String → Bool)
    (read : String → ReadOutcome) (w : Bool) (s : ℚ → ℚ)
    (hp : ex raw_data_path = false) :
    (main' ex read w s).resolvedPath = alternative_paths.find? ex
    ∧ (ex "penguins.csv" = true → resolveRawPath ex = some "penguins.csv")
    ∧ (ex "penguins.csv" = false → ex "../penguins.csv" = true →
        resolveRawPath ex = some "../penguins.csv")
    ∧ (ex "penguins.csv" = false → ex "../penguins.csv" = false →
        ex "penguins_raw.csv" = true →
        resolveRawPath ex = some "penguins_raw.csv")
    ∧ (ex "penguins.csv" = false → ex "../penguins.csv" = false →
        ex "penguins_raw.csv" = false →
        main' ex read w s = ⟨none, false, false, false, none⟩) := by
  have hres : resolveRawPath ex = alternative_paths.find? ex := by
    simp [resolveRawPath, hp]
  refine ⟨?_, ?_, ?_, ?_, ?_⟩
  · cases hfind : alternative_paths.find? ex with
    | none => simp [main', hres, hfind]
    | some p =>
        cases hload : (load_data p (read p)).1 with
        | none => simp [main', hres, hfind, hload]
        | some df => simp [main', hres, hfind, hload]
  · intro h1
    simp [resolveRawPath, hp, alternative_paths, List.find?, h1]
  · intro h1 h2
    simp [resolveRawPath, hp, alternative_paths, List.find?, h1, h2]
  · intro h1 h2 h3
    simp [resolveRawPath, hp, alternative_paths, List.find?, h1, h2, h3]
  · intro h1 h2 h3
    have : resolveRawPath ex = none := by
      simp [resolveRawPath, hp, alternative_paths, List.find?, h1, h2, h3]
    simp [main', this]

/-- Witness for C6: a filesystem with no input file at all; `main` aborts
with no stage run and no output. -/
theorem main_fallback_resolution_witness :
    ((fun _ : String => false) raw_data_path = false)
    ∧ main' (fun _ => false) (fun _ => ReadOutcome.fileNotFound) true
        (fun q => q)
      = ⟨none, false, false, false, none⟩ :=
  ⟨rfl, (main_fallback_resolution (fun _ => false) _ true (fun q => q)
      rfl).2.2.2.2 rfl rfl rfl⟩

/-! ## C8: save/read round trip -/

/-- C8: writing a processed table with `save_processed_data` and reading
the written file back preserves the row count and the column list. -/
theorem save_round_trip (df : DataFrame) :
    save_processed_data true df = (true, some (to_csv df))
    ∧ (read_csv (to_csv df)).rows.length = df.rows.length
    ∧ (read_csv (to_csv df)).cols = df.cols := by
  refine ⟨rfl, ?_, rfl⟩
  simp [read_csv, to_csv]

/-! ## Label-encoder lemmas -/

/-- `classes_` is the distinct values (a permutation of `dedup`). -/
lemma labelClasses_perm_dedup (xs : List String) :
    (labelClasses xs).Perm xs.dedup :=
  List.perm_insertionSort _ _

/-- `classes_` is sorted ascending. -/
lemma labelClasses_sorted (xs : List String) :
    (labelClasses xs).Sorted (· ≤ ·) :=
  List.sorted_insertionSort _ _

/-- `classes_` has no duplicates. -/
lemma labelClasses_nodup (xs : List String) : (labelClasses xs).Nodup :=
  ((labelClasses_perm_dedup xs).nodup_iff).2 xs.nodup_dedup

/-- Membership in `classes_` is membership in the column. -/
lemma mem_labelClasses {xs : List String} {v : String} :
    v ∈ labelClasses xs ↔ v ∈ xs := by
  rw [(labelClasses_perm_dedup xs).mem_iff, List.mem_dedup]

/-- `classes_` has one entry per distinct value. -/
lemma labelClasses_length (xs : List String) :
    (labelClasses xs).length = xs.dedup.length :=
  (labelClasses_perm_dedup xs).length_eq

/-- Two observed values with the same code are equal. -/
lemma labelCode_inj {xs : List String} {v w : String}
    (hv : v ∈ xs) (hw : w ∈ xs) :
    labelCode xs v = labelCode xs w → v = w := by
  intro h
  exact (List.indexOf_inj (mem_labelClasses.2 hv) (mem_labelClasses.2 hw)).1 h

/-- The code of an observed value is below the number of distinct values. -/
lemma labelCode_lt {xs : List String} {v : String} (hv : v ∈ xs) :
    labelCode xs v < xs.dedup.length := by
  rw [← labelClasses_length]
  exact List.indexOf_lt_length.2 (mem_labelClasses.2 hv)

/-! ## C2: the encoding is a bijection on distinct values -/

/-- C2: on each of the three categorical columns of a cleaned table, the
label encoding has as many distinct codes as distinct string values and
never gives two distinct values the same code. -/
theorem encode_bijection (df : DataFrame) (c : String)
    (hc : c ∈ (["species", "island", "sex"] : List String))
    (xs : List String) (hxs : xs = (getCol (dropna df) c).map cellStr) :
    (labelTransform xs).toFinset.card = xs.toFinset.card
    ∧ ∀ v ∈ xs, ∀ w ∈ xs, labelCode xs v = labelCode xs w → v = w := by
  refine ⟨?_, fun v hv w hw => labelCode_inj hv hw⟩
  have himg : (labelTransform xs).toFinset = xs.toFinset.image (labelCode xs) := by
    simp only [labelTransform]
    ext n
    simp
  rw [himg]
  apply Finset.card_image_of_injOn
  intro v hv w hw
  exact labelCode_inj (List.mem_toFinset.1 hv) (List.mem_toFinset.1 hw)

/-- Witness for C2 on the species column of the sample table. -/
theorem encode_bijection_witness :
    ("species" ∈ (["species", "island", "sex"] : List String))
    ∧ (["Gentoo", "Adelie"] : List String)
        = (getCol (dropna sampleDF) "species").map cellStr
    ∧ (labelTransform ["Gentoo", "Adelie"]).toFinset.card
        = (["Gentoo", "Adelie"] : List String).toFinset.card :=
  ⟨by decide, by decide,
    (encode_bijection sampleDF "species" (by decide) ["Gentoo", "Adelie"]
      (by decide)).1⟩

/-! ## C9: codes are dense, lexicographically ordered, order-independent -/

/-- C9: on a categorical column of a cleaned table the encoder assigns the
dense codes `0..k-1` (`k` the number of distinct values) in ascending
lexicographic order of the distinct values, and the encoding depends only
on the multiset of column values, not on first-appearance order. -/
theorem encode_codes_dense_sorted (df : DataFrame) (c : String)
    (hc : c ∈ (["species", "island", "sex"] : List String))
    (xs : List String) (hxs : xs = (getCol (dropna df) c).map cellStr)
    (ys : List String) :
    (∀ v ∈ xs, ∀ w ∈ xs, v < w → labelCode xs v < labelCode xs w)
    ∧ (labelTransform xs).toFinset = Finset.range xs.dedup.length
    ∧ (xs.Perm ys → labelClasses xs = labelClasses ys
        ∧ ∀ v, labelCode xs v = labelCode ys v) := by
  refine ⟨?_, ?_, ?_⟩
  · intro v hv w hw hvw
    have hv' : v ∈ labelClasses xs := mem_labelClasses.2 hv
    have hw' : w ∈ labelClasses xs := mem_labelClasses.2 hw
    have hvl : (labelClasses xs).indexOf v < (labelClasses xs).length :=
      List.indexOf_lt_length.2 hv'
    have hwl : (labelClasses xs).indexOf w < (labelClasses xs).length :=
      List.indexOf_lt_length.2 hw'
    by_contra hle
    push_neg at hle
    rcases Nat.lt_or_ge (labelCode xs w) (labelCode xs v) with hlt | hge
    · have hrel := List.Sorted.rel_get_of_lt (labelClasses_sorted xs)
        (a := ⟨(labelClasses xs).indexOf w, hwl⟩)
        (b := ⟨(labelClasses xs).indexOf v, hvl⟩) (Fin.mk_lt_mk.2 hlt)
      simp only [List.get_eq_getElem, List.getElem_indexOf] at hrel
      exact absurd hvw (not_lt.2 hrel)
    · have heq : labelCode xs v = labelCode xs w := le_antisymm hge hle
      exact absurd (labelCode_inj hv hw heq) (ne_of_lt hvw)
  · ext n
    simp only [labelTransform, List.mem_toFinset, List.mem_map,
      Finset.mem_range]
    constructor
    · rintro ⟨v, hv, rfl⟩
      exact labelCode_lt hv
    · intro hn
      have hn' : n < (labelClasses xs).length := by
        rw [labelClasses_length]; exact hn
      refine ⟨(labelClasses xs)[n], ?_, ?_⟩
      · exact mem_labelClasses.1 (List.getElem_mem hn')
      · exact List.indexOf_getElem (labelClasses_nodup xs) n hn'
  · intro hperm
    have hcl : labelClasses xs = labelClasses ys := by
      apply List.eq_of_perm_of_sorted _ (labelClasses_sorted xs)
        (labelClasses_sorted ys)
      exact (labelClasses_perm_dedup xs).trans
        (hperm.dedup.trans (labelClasses_perm_dedup ys).symm)
    exact ⟨hcl, fun v => by simp only [labelCode, hcl]⟩

/-- Witness for C9: the species column of the sample table against a
reordering of it. -/
theorem encode_codes_dense_sorted_witness :
    ("species" ∈ (["species", "island", "sex"] : List String))
    ∧ (["Gentoo", "Adelie"] : List String)
        = (getCol (dropna sampleDF) "species").map cellStr
    ∧ (["Gentoo", "Adelie"] : List String).Perm ["Adelie", "Gentoo"]
    ∧ labelClasses ["Gentoo", "Adelie"] = labelClasses ["Adelie", "Gentoo"] :=
  ⟨by decide, by decide, by decide,
    ((encode_codes_dense_sorted sampleDF "species" (by decide)
        ["Gentoo", "Adelie"] (by decide) ["Adelie", "Gentoo"]).2.2
      (by decide)).1⟩

/-! ## Scaling lemmas -/

/-- Dividing every summand divides the sum. -/
lemma sum_map_div (xs : List ℚ) (f : ℚ → ℚ) (c : ℚ) :
    (xs.map (fun x => f x / c)).sum = (xs.map f).sum / c := by
  induction xs with
  | nil => simp
  | cons a t ih => simp [ih]; ring

/-- Sum of a centered, divided column. -/
lemma sum_map_sub_div (xs : List ℚ) (m s : ℚ) :
    (xs.map (fun x => (x - m) / s)).sum = (xs.sum - xs.length * m) / s := by
  induction xs with
  | nil => simp
  | cons a t ih =>
      simp only [List.map_cons, List.sum_cons, ih, List.length_cons]
      push_cast
      ring

/-- A zero sum of squares forces every term to vanish. -/
lemma eq_of_sum_sq_eq_zero (f : ℚ → ℚ) :
    ∀ xs : List ℚ, (xs.map (fun x => f x ^ 2)).sum = 0 → ∀ x ∈ xs, f x = 0 := by
  intro xs
  induction xs with
  | nil => intro _ x hx; cases hx
  | cons a t ih =>
      intro hsum x hx
      have hrest : 0 ≤ (t.map (fun x => f x ^ 2)).sum :=
        List.sum_nonneg (by
          intro y hy
          rcases List.mem_map.1 hy with ⟨z, _, rfl⟩
          exact sq_nonneg _)
      have hhead : 0 ≤ f a ^ 2 := sq_nonneg _
      simp only [List.map_cons, List.sum_cons] at hsum
      have ha : f a ^ 2 = 0 := by linarith
      have ht : (t.map (fun x => f x ^ 2)).sum = 0 := by linarith
      rcases List.mem_cons.1 hx with rfl | hx'
      · exact pow_eq_zero_iff (by norm_num) |>.1 ha
      · exact ih ht x hx'
/-- Mean of a centered, divided column is zero. -/
lemma listMean_scaled (xs : List ℚ) (m σ : ℚ) (hn : (xs.length : ℚ) ≠ 0)
    (hm : xs.sum = m * xs.length) :
    listMean (xs.map (fun x => (x - m) / σ)) = 0 := by
  simp only [listMean]
  rw [sum_map_sub_div, List.length_map, hm]
  have hz : m * (xs.length : ℚ) - (xs.length : ℚ) * m = 0 := by ring
  rw [hz]
  simp

/-- Variance of a column centered at its mean and divided by a square
root of its variance is one. -/
lemma listVar_scaled (xs : List ℚ) (m σ V : ℚ) (hn : (xs.length : ℚ) ≠ 0)
    (hm : xs.sum = m * xs.length)
    (hV : (xs.map (fun x => (x - m) ^ 2)).sum = V * xs.length)
    (hσ2 : σ ^ 2 = V) (hV0 : V ≠ 0) :
    listVar (xs.map (fun x => (x - m) / σ)) = 1 := by
  have hmean0 := listMean_scaled xs m σ hn hm
  simp only [listVar]
  rw [hmean0, List.length_map]
  simp only [sub_zero, List.map_map, Function.comp_def]
  have hsq2 : ∀ x : ℚ, ((x - m) / σ) ^ 2 = (x - m) ^ 2 / V := by
    intro x
    rw [div_pow, hσ2]
  simp_rw [hsq2]
  rw [sum_map_div, hV]
  field_simp

/-! ## C3: scaling yields mean 0 and unit variance -/

/-- C3: on a column with non-zero variance the scaler replaces each value
by `(value - mean) / std`; the scaled column has mean exactly 0 and
variance exactly 1 (hence standard deviation 1, the last conjunct).
`sqrtQ` stands for the square root, constrained at the one point it is
used. -/
theorem scaling_standardizes (sqrtQ : ℚ → ℚ) (xs : List ℚ)
    (hne : xs ≠ [])
    (hvar : listVar xs ≠ 0)
    (hsq : sqrtQ (listVar xs) ^ 2 = listVar xs)
    (hpos : 0 ≤ sqrtQ (listVar xs)) :
    standardizeCol sqrtQ xs
        = xs.map (fun x => (x - listMean xs) / sqrtQ (listVar xs))
    ∧ listMean (standardizeCol sqrtQ xs) = 0
    ∧ listVar (standardizeCol sqrtQ xs) = 1
    ∧ ∀ s : ℚ, 0 ≤ s → s ^ 2 = listVar (standardizeCol sqrtQ xs) → s = 1 := by
  have hs0 : sqrtQ (listVar xs) ≠ 0 := by
    intro h
    rw [h] at hsq
    simp only [ne_eq] at hvar
    exact hvar (by simpa using hsq.symm)
  have hguard : handleZerosInScale (sqrtQ (listVar xs)) = sqrtQ (listVar xs) := by
    simp [handleZerosInScale, hs0]
  have hstd : standardizeCol sqrtQ xs
      = xs.map (fun x => (x - listMean xs) / sqrtQ (listVar xs)) := by
    simp [standardizeCol, hguard]
  have hn : (xs.length : ℚ) ≠ 0 := by
    intro h
    exact hne (List.length_eq_zero.1 (by exact_mod_cast h))
  have hm : xs.sum = listMean xs * xs.length := by
    simp only [listMean]
    field_simp
  have hV : (xs.map (fun x => (x - listMean xs) ^ 2)).sum
      = listVar xs * xs.length := by
    simp only [listVar]
    field_simp
  have hmean : listMean (standardizeCol sqrtQ xs) = 0 := by
    rw [hstd]
    exact listMean_scaled xs (listMean xs) (sqrtQ (listVar xs)) hn hm
  have hvar1 : listVar (standardizeCol sqrtQ xs) = 1 := by
    rw [hstd]
    exact listVar_scaled xs (listMean xs) (sqrtQ (listVar xs)) (listVar xs)
      hn hm hV hsq hvar
  refine ⟨hstd, hmean, hvar1, ?_⟩
  intro s hs hs2
  rw [hvar1] at hs2
  have hfac : (s - 1) * (s + 1) = 0 := by linear_combination hs2
  rcases mul_eq_zero.1 hfac with h | h
  · linarith
  · linarith

/-- Witness for C3: the column `[39, 41]` has mean 40 and variance 1, so
the identity serves as the square root at the point used. -/
theorem scaling_standardizes_witness :
    (([39, 41] : List ℚ) ≠ [])
    ∧ listVar [39, 41] ≠ 0
    ∧ ((fun q : ℚ => q) (listVar [39, 41])) ^ 2 = listVar [39, 41]
    ∧ (0 : ℚ) ≤ (fun q : ℚ => q) (listVar [39, 41])
    ∧ listMean (standardizeCol (fun q : ℚ => q) [39, 41]) = 0
    ∧ listVar (standardizeCol (fun q : ℚ => q) [39, 41]) = 1 :=
  ⟨by simp, by norm_num [listVar, listMean], by norm_num [listVar, listMean],
    by norm_num [listVar, listMean],
    (scaling_standardizes (fun q => q) [39, 41] (by simp)
      (by norm_num [listVar, listMean]) (by norm_num [listVar, listMean])
      (by norm_num [listVar, listMean])).2.1,
    (scaling_standardizes (fun q => q) [39, 41] (by simp)
      (by norm_num [listVar, listMean]) (by norm_num [listVar, listMean])
      (by norm_num [listVar, listMean])).2.2.1⟩

/-! ## C4: zero-variance columns -/

/-- C4 counterexample: on the constant (zero-variance) column `[5, 5]` the
scaling step does NOT divide by zero — `StandardScaler` replaces the zero
scale by 1 (`_handle_zeros_in_scale`), so the result is the all-zero
column, i.e. the result is treated as zero, contrary to the claim. -/
theorem scaling_zero_variance_counterexample :
    listVar [5, 5] = 0
    ∧ handleZerosInScale ((fun q : ℚ => q) (listVar [5, 5])) = 1
    ∧ standardizeCol (fun q : ℚ => q) [5, 5] = [0, 0] := by
  refine ⟨by norm_num [listVar, listMean], ?_, ?_⟩
  · norm_num [handleZerosInScale, listVar, listMean]
  · norm_num [standardizeCol, handleZerosInScale, listVar, listMean]

/-- C4 amended: on a non-empty column with zero variance the scaler's
divisor is 1, not 0 (sklearn substitutes a unit scale for a zero standard
deviation), and every scaled value is 0; `sqrtQ` is any square-root
function with `sqrtQ 0 = 0`, as the real square root has. -/
theorem scaling_zero_variance_guarded (sqrtQ : ℚ → ℚ) (xs : List ℚ)
    (hne : xs ≠ []) (hvar : listVar xs = 0) (hsq : sqrtQ 0 = 0) :
    handleZerosInScale (sqrtQ (listVar xs)) = 1
    ∧ standardizeCol sqrtQ xs = List.replicate xs.length 0 := by
  have hn : (xs.length : ℚ) ≠ 0 := by
    intro h
    exact hne (List.length_eq_zero.1 (by exact_mod_cast h))
  have hscale : handleZerosInScale (sqrtQ (listVar xs)) = 1 := by
    rw [hvar, hsq]
    simp [handleZerosInScale]
  refine ⟨hscale, ?_⟩
  have hsum0 : (xs.map (fun x => (x - listMean xs) ^ 2)).sum = 0 := by
    have : (xs.map (fun x => (x - listMean xs) ^ 2)).sum / (xs.length : ℚ) = 0 :=
      hvar
    field_simp at this
    exact this
  have hconst : ∀ x ∈ xs, x - listMean xs = 0 :=
    eq_of_sum_sq_eq_zero (fun x => x - listMean xs) xs hsum0
  apply List.eq_replicate_iff.2
  refine ⟨by simp [standardizeCol], ?_⟩
  intro b hb
  have hb' : b ∈ xs.map
      (fun x => (x - listMean xs) / handleZerosInScale (sqrtQ (listVar xs))) := by
    simpa [standardizeCol] using hb
  rcases List.mem_map.1 hb' with ⟨x, hx, hbx⟩
  rw [← hbx, hscale, hconst x hx]
  simp

/-- Witness for the amended C4 on the constant column `[5, 5]`. -/
theorem scaling_zero_variance_guarded_witness :
    (([5, 5] : List ℚ) ≠ [])
    ∧ listVar [5, 5] = 0
    ∧ (fun q : ℚ => q) 0 = 0
    ∧ standardizeCol (fun q : ℚ => q) [5, 5]
        = List.replicate ([5, 5] : List ℚ).length 0 :=
  ⟨by simp, by norm_num [listVar, listMean], rfl,
    (scaling_zero_variance_guarded (fun q => q) [5, 5] (by simp)
      (by norm_num [listVar, listMean]) rfl).2⟩

/-! ## Frame lemmas for column assignment -/

/-- `dropna` preserves well-formedness. -/
lemma WF_dropna {df : DataFrame} (hwf : df.WF) : (dropna df).WF := by
  intro r hr
  exact hwf r (List.mem_of_mem_filter hr)

/-- Overwriting an existing column keeps the column list. -/
lemma cols_assignCol_mem {df : DataFrame} {c : String} (vals : List Cell)
    (h : c ∈ df.cols) : (assignCol df c vals).cols = df.cols := by
  simp [assignCol, h]

/-- Assigning a fresh column appends its name at the right end. -/
lemma cols_assignCol_not_mem {df : DataFrame} {c : String} (vals : List Cell)
    (h : c ∉ df.cols) : (assignCol df c vals).cols = df.cols ++ [c] := by
  simp [assignCol, h]

/-- Column assignment keeps the row count. -/
lemma rows_length_assignCol {df : DataFrame} {c : String} {vals : List Cell}
    (hlen : vals.length = df.rows.length) :
    (assignCol df c vals).rows.length = df.rows.length := by
  by_cases h : c ∈ df.cols <;> simp [assignCol, h, List.length_zipWith, hlen]

/-- Column assignment preserves well-formedness. -/
lemma WF_assignCol {df : DataFrame} {c : String} {vals : List Cell}
    (hwf : df.WF) (hlen : vals.length = df.rows.length) :
    (assignCol df c vals).WF := by
  intro r' hr'
  by_cases h : c ∈ df.cols
  · simp only [assignCol, if_pos h] at hr' ⊢
    rcases List.mem_iff_getElem.1 hr' with ⟨i, hi, hget⟩
    rw [List.getElem_zipWith] at hget
    rw [← hget, List.length_set]
    exact hwf _ (List.getElem_mem _)
  · simp only [assignCol, if_neg h] at hr' ⊢
    rcases List.mem_iff_getElem.1 hr' with ⟨i, hi, hget⟩
    rw [List.getElem_zipWith] at hget
    rw [← hget]
    simp only [List.length_append, List.length_singleton]
    rw [hwf _ (List.getElem_mem _)]

/-- Reading back the assigned column gives the assigned values. -/
lemma getCol_assignCol_self {df : DataFrame} {c : String} {vals : List Cell}
    (hwf : df.WF) (hlen : vals.length = df.rows.length) :
    getCol (assignCol df c vals) c = vals := by
  apply List.ext_getElem
  · simp only [getCol, List.length_map]
    rw [rows_length_assignCol hlen, hlen]
  · intro i hi1 hi2
    have hi : i < df.rows.length := by
      simp only [getCol, List.length_map] at hi1
      rw [rows_length_assignCol hlen] at hi1
      exact hi1
    by_cases h : c ∈ df.cols
    · simp only [getCol, assignCol, if_pos h, List.getElem_map,
        List.getElem_zipWith]
      have hic : df.cols.indexOf c < df.rows[i].length := by
        rw [hwf _ (List.getElem_mem _)]
        exact List.indexOf_lt_length.2 h
      simp [List.getD_eq_getElem?_getD, List.getElem?_set_eq_of_lt _ hic]
    · simp only [getCol, assignCol, if_neg h, List.getElem_map,
        List.getElem_zipWith]
      have hidx : List.indexOf c (df.cols ++ [c]) = df.cols.length := by
        rw [List.indexOf_append_of_not_mem h]
        simp
      have hrl : df.rows[i].length = df.cols.length :=
        hwf _ (List.getElem_mem _)
      have hbase : (df.rows[i] ++ [vals[i]]).getD df.rows[i].length none
          = vals[i] := by
        simp [List.getD_eq_getElem?_getD]
      rw [hrl] at hbase
      simpa only [hidx] using hbase

/-- Assignment leaves every other existing column unchanged. -/
lemma getCol_assignCol_ne {df : DataFrame} {c c' : String} {vals : List Cell}
    (hwf : df.WF) (hlen : vals.length = df.rows.length)
    (hc' : c' ∈ df.cols) (hne : c' ≠ c) :
    getCol (assignCol df c vals) c' = getCol df c' := by
  apply List.ext_getElem
  · simp only [getCol, List.length_map]
    rw [rows_length_assignCol hlen]
  · intro i hi1 hi2
    have hi : i < df.rows.length := by
      simpa only [getCol, List.length_map] using hi2
    by_cases h : c ∈ df.cols
    · simp only [getCol, assignCol, if_pos h, List.getElem_map,
        List.getElem_zipWith]
      have hne' : df.cols.indexOf c ≠ df.cols.indexOf c' := by
        intro heq
        exact hne ((List.indexOf_inj hc' h).1 heq.symm)
      simp [List.getD_eq_getElem?_getD, List.getElem?_set_ne hne']
    · simp only [getCol, assignCol, if_neg h, List.getElem_map,
        List.getElem_zipWith]
      have hidx : List.indexOf c' (df.cols ++ [c]) = df.cols.indexOf c' :=
        List.indexOf_append_of_mem hc'
      have hlt : df.cols.indexOf c' < df.rows[i].length := by
        rw [hwf _ (List.getElem_mem _)]
        exact List.indexOf_lt_length.2 hc'
      simp only [hidx]
      simp [List.getD_eq_getElem?_getD, List.getElem?_append_left hlt]


/-- A column read has one cell per row. -/
lemma length_getCol (d : DataFrame) (c : String) :
    (getCol d c).length = d.rows.length := by
  simp [getCol]

/-- What one encoding step does to the frame: it appends the fresh
destination column, filled with the source column's codes, preserving
well-formedness, the row count and every existing column. -/
lemma encodeStep_spec (d : DataFrame) (src dst : String) (hwf : d.WF)
    (hdst : dst ∉ d.cols) :
    (encodeStep d src dst).WF
    ∧ (encodeStep d src dst).cols = d.cols ++ [dst]
    ∧ (encodeStep d src dst).rows.length = d.rows.length
    ∧ getCol (encodeStep d src dst) dst
        = (labelTransform ((getCol d src).map cellStr)).map natCell
    ∧ ∀ c ∈ d.cols, getCol (encodeStep d src dst) c = getCol d c := by
  have hlen : ((labelTransform ((getCol d src).map cellStr)).map
      natCell).length = d.rows.length := by
    simp only [labelTransform, List.length_map, length_getCol]
  refine ⟨WF_assignCol hwf hlen, cols_assignCol_not_mem _ hdst,
    rows_length_assignCol hlen, getCol_assignCol_self hwf hlen, ?_⟩
  intro c hc
  exact getCol_assignCol_ne hwf hlen hc (fun h => hdst (h ▸ hc))

/-- What one scaling step does to the frame: it overwrites the existing
column `c` with its standardized values, preserving well-formedness, the
column list, the row count and every other column. -/
lemma scaleStep_spec (sqrtQ : ℚ → ℚ) (d : DataFrame) (c : String)
    (hwf : d.WF) (hc : c ∈ d.cols) :
    (scaleStep sqrtQ d c).WF
    ∧ (scaleStep sqrtQ d c).cols = d.cols
    ∧ (scaleStep sqrtQ d c).rows.length = d.rows.length
    ∧ getCol (scaleStep sqrtQ d c) c
        = (standardizeCol sqrtQ ((getCol d c).map cellNum)).map ratCell
    ∧ ∀ c' ∈ d.cols, c' ≠ c →
        getCol (scaleStep sqrtQ d c) c' = getCol d c' := by
  have hlen : ((standardizeCol sqrtQ ((getCol d c).map cellNum)).map
      ratCell).length = d.rows.length := by
    simp only [standardizeCol, List.length_map, length_getCol]
  exact ⟨WF_assignCol hwf hlen, cols_assignCol_mem _ hc,
    rows_length_assignCol hlen, getCol_assignCol_self hwf hlen,
    fun c' hc' hne => getCol_assignCol_ne hwf hlen hc' hne⟩

/-! ## C7: the frame effect of preprocessing -/

/-- C7: the processed table keeps every original column (the three
categorical string columns and any other non-scaled column with their
post-drop content unchanged), appends exactly the three integer code
columns at the right end, and overwrites exactly the four numeric
measurement columns with their standardized values. -/
theorem preprocess_frame_effect (sqrtQ : ℚ → ℚ) (df : DataFrame)
    (hwf : df.WF)
    (hspecies : "species" ∈ df.cols) (hisland : "island" ∈ df.cols)
    (hsex : "sex" ∈ df.cols)
    (hnum : ∀ c ∈ numerical_features, c ∈ df.cols)
    (henc : ∀ c ∈ (["species_encoded", "island_encoded",
        "sex_encoded"] : List String), c ∉ df.cols) :
    (preprocess_penguins_data sqrtQ df).2.2.cols
        = df.cols ++ ["species_encoded", "island_encoded", "sex_encoded"]
    ∧ (∀ c ∈ df.cols, c ∉ numerical_features →
        getCol (preprocess_penguins_data sqrtQ df).2.2 c
          = getCol (dropna df) c)
    ∧ (∀ c ∈ numerical_features,
        getCol (preprocess_penguins_data sqrtQ df).2.2 c
          = (standardizeCol sqrtQ ((getCol (dropna df) c).map cellNum)).map
              ratCell)
    ∧ getCol (preprocess_penguins_data sqrtQ df).2.2 "species_encoded"
        = (labelTransform ((getCol (dropna df) "species").map cellStr)).map
            natCell
    ∧ getCol (preprocess_penguins_data sqrtQ df).2.2 "island_encoded"
        = (labelTransform ((getCol (dropna df) "island").map cellStr)).map
            natCell
    ∧ getCol (preprocess_penguins_data sqrtQ df).2.2 "sex_encoded"
        = (labelTransform ((getCol (dropna df) "sex").map cellStr)).map
            natCell
    ∧ ∀ ce ∈ (["species_encoded", "island_encoded",
          "sex_encoded"] : List String),
        ∀ cell ∈ getCol (preprocess_penguins_data sqrtQ df).2.2 ce,
          ∃ n : Nat, cell = natCell n := by
  have hse : "species_encoded" ∉ df.cols := henc _ (by simp)
  have hie : "island_encoded" ∉ df.cols := henc _ (by simp)
  have hxe : "sex_encoded" ∉ df.cols := henc _ (by simp)
  -- the intermediate frames
  have h1wf : (dropna df).WF := WF_dropna hwf
  have h1cols : (dropna df).cols = df.cols := rfl
  obtain ⟨h2wf, h2cols, h2len, h2self, h2keep⟩ :=
    encodeStep_spec (dropna df) "species" "species_encoded" h1wf hse
  rw [h1cols] at h2cols
  obtain ⟨h3wf, h3cols, h3len, h3self, h3keep⟩ :=
    encodeStep_spec (encodeStep (dropna df) "species" "species_encoded")
      "island" "island_encoded" h2wf (by
        rw [h2cols]
        simp only [List.mem_append, List.mem_singleton]
        push_neg
        exact ⟨hie, by decide⟩)
  rw [h2cols] at h3cols
  obtain ⟨h4wf, h4cols, h4len, h4self, h4keep⟩ :=
    encodeStep_spec (encodeStep (encodeStep (dropna df) "species"
        "species_encoded") "island" "island_encoded") "sex" "sex_encoded"
      h3wf (by
        rw [h3cols]
        simp only [List.mem_append, List.mem_singleton]
        push_neg
        exact ⟨⟨hxe, by decide⟩, by decide⟩)
  rw [h3cols] at h4cols
  -- memberships in the encoded frame
  have horig4 : ∀ c ∈ df.cols,
      c ∈ (encodeStep (encodeStep (encodeStep (dropna df) "species"
        "species_encoded") "island" "island_encoded") "sex"
        "sex_encoded").cols := by
    intro c hc
    rw [h4cols]
    exact List.mem_append_left _ (List.mem_append_left _
      (List.mem_append_left _ hc))
  have hnum4 : ∀ c ∈ numerical_features,
      c ∈ (encodeStep (encodeStep (encodeStep (dropna df) "species"
        "species_encoded") "island" "island_encoded") "sex"
        "sex_encoded").cols :=
    fun c hc => horig4 c (hnum c hc)
  set E := encodeStep (encodeStep (encodeStep (dropna df) "species"
      "species_encoded") "island" "island_encoded") "sex" "sex_encoded"
    with hEdef
  -- the four scaling steps
  obtain ⟨hs1wf, hs1cols, hs1len, hs1self, hs1keep⟩ :=
    scaleStep_spec sqrtQ E "bill_length_mm" h4wf
      (hnum4 _ (by simp [numerical_features]))
  set S1 := scaleStep sqrtQ E "bill_length_mm" with hS1def
  obtain ⟨hs2wf, hs2cols, hs2len, hs2self, hs2keep⟩ :=
    scaleStep_spec sqrtQ S1 "bill_depth_mm" hs1wf
      (by rw [hs1cols]; exact hnum4 _ (by simp [numerical_features]))
  set S2 := scaleStep sqrtQ S1 "bill_depth_mm" with hS2def
  obtain ⟨hs3wf, hs3cols, hs3len, hs3self, hs3keep⟩ :=
    scaleStep_spec sqrtQ S2 "flipper_length_mm" hs2wf
      (by rw [hs2cols, hs1cols]; exact hnum4 _ (by simp [numerical_features]))
  set S3 := scaleStep sqrtQ S2 "flipper_length_mm" with hS3def
  obtain ⟨hs4wf, hs4cols, hs4len, hs4self, hs4keep⟩ :=
    scaleStep_spec sqrtQ S3 "body_mass_g" hs3wf
      (by rw [hs3cols, hs2cols, hs1cols]
          exact hnum4 _ (by simp [numerical_features]))
  set S4 := scaleStep sqrtQ S3 "body_mass_g" with hS4def
  have hP : (preprocess_penguins_data sqrtQ df).2.2 = S4 := by
    rw [hS4def, hS3def, hS2def, hS1def, hEdef]
    simp only [preprocess_penguins_data, numerical_features,
      List.foldl_cons, List.foldl_nil]
  rw [hP]
  -- every original column survives the three encode steps unchanged
  have hEkeep : ∀ c ∈ df.cols, getCol E c = getCol (dropna df) c := by
    intro c hc
    rw [hEdef]
    rw [h4keep c (by
          rw [h3cols]
          exact List.mem_append_left _ (List.mem_append_left _ hc)),
        h3keep c (by rw [h2cols]; exact List.mem_append_left _ hc),
        h2keep c (by rw [h1cols]; exact hc)]
  -- a column other than the four numeric ones survives the scale steps
  have hSkeep : ∀ c ∈ E.cols, c ∉ numerical_features →
      getCol S4 c = getCol E c := by
    intro c hc hcn
    have hne_bl : c ≠ "bill_length_mm" :=
      fun h => hcn (h ▸ (by simp [numerical_features]))
    have hne_bd : c ≠ "bill_depth_mm" :=
      fun h => hcn (h ▸ (by simp [numerical_features]))
    have hne_fl : c ≠ "flipper_length_mm" :=
      fun h => hcn (h ▸ (by simp [numerical_features]))
    have hne_bm : c ≠ "body_mass_g" :=
      fun h => hcn (h ▸ (by simp [numerical_features]))
    rw [hs4keep c (by rw [hs3cols, hs2cols, hs1cols]; exact hc) hne_bm,
        hs3keep c (by rw [hs2cols, hs1cols]; exact hc) hne_fl,
        hs2keep c (by rw [hs1cols]; exact hc) hne_bd,
        hs1keep c hc hne_bl]
  -- the three encoded columns of the final frame
  have hsemem : "species_encoded" ∈ E.cols := by
    rw [h4cols]
    exact List.mem_append_left _ (List.mem_append_left _
      (List.mem_append_right _ (List.mem_singleton.2 rfl)))
  have hiemem : "island_encoded" ∈ E.cols := by
    rw [h4cols]
    exact List.mem_append_left _
      (List.mem_append_right _ (List.mem_singleton.2 rfl))
  have hxemem : "sex_encoded" ∈ E.cols := by
    rw [h4cols]
    exact List.mem_append_right _ (List.mem_singleton.2 rfl)
  have hScols : S4.cols = E.cols := by
    rw [hs4cols, hs3cols, hs2cols, hs1cols]
  have hseCol : getCol S4 "species_encoded"
      = (labelTransform ((getCol (dropna df) "species").map cellStr)).map
          natCell := by
    rw [hSkeep _ hsemem (by decide),
        h4keep _ (by
          rw [h3cols]
          exact List.mem_append_left _
            (List.mem_append_right _ (List.mem_singleton.2 rfl))),
        h3keep _ (by
          rw [h2cols]
          exact List.mem_append_right _ (List.mem_singleton.2 rfl)),
        h2self]
  have hieCol : getCol S4 "island_encoded"
      = (labelTransform ((getCol (dropna df) "island").map cellStr)).map
          natCell := by
    rw [hSkeep _ hiemem (by decide),
        h4keep _ (by
          rw [h3cols]
          exact List.mem_append_right _ (List.mem_singleton.2 rfl)),
        h3self, h2keep "island" (by rw [h1cols]; exact hisland)]
  have hxeCol : getCol S4 "sex_encoded"
      = (labelTransform ((getCol (dropna df) "sex").map cellStr)).map
          natCell := by
    rw [hSkeep _ hxemem (by decide), h4self,
        h3keep "sex" (by rw [h2cols]; exact List.mem_append_left _ hsex),
        h2keep "sex" (by rw [h1cols]; exact hsex)]
  refine ⟨?_, ?_, ?_, hseCol, hieCol, hxeCol, ?_⟩
  · rw [hScols, h4cols]
    simp [List.append_assoc]
  · intro c hc hcn
    rw [hSkeep c (horig4 c hc) hcn, hEkeep c hc]
  · intro c hc
    have hc' := hc
    simp only [numerical_features, List.mem_cons, List.not_mem_nil,
      or_false] at hc'
    rcases hc' with rfl | rfl | rfl | rfl
    · rw [hs4keep _ (by
            rw [hs3cols, hs2cols, hs1cols]
            exact hnum4 _ (by simp [numerical_features])) (by decide),
          hs3keep _ (by
            rw [hs2cols, hs1cols]
            exact hnum4 _ (by simp [numerical_features])) (by decide),
          hs2keep _ (by
            rw [hs1cols]
            exact hnum4 _ (by simp [numerical_features])) (by decide),
          hs1self, hEkeep _ (hnum _ (by simp [numerical_features]))]
    · rw [hs4keep _ (by
            rw [hs3cols, hs2cols, hs1cols]
            exact hnum4 _ (by simp [numerical_features])) (by decide),
          hs3keep _ (by
            rw [hs2cols, hs1cols]
            exact hnum4 _ (by simp [numerical_features])) (by decide),
          hs2self,
          hs1keep _ (hnum4 _ (by simp [numerical_features])) (by decide),
          hEkeep _ (hnum _ (by simp [numerical_features]))]
    · rw [hs4keep _ (by
            rw [hs3cols, hs2cols, hs1cols]
            exact hnum4 _ (by simp [numerical_features])) (by decide),
          hs3self,
          hs2keep _ (by
            rw [hs1cols]
            exact hnum4 _ (by simp [numerical_features])) (by decide),
          hs1keep _ (hnum4 _ (by simp [numerical_features])) (by decide),
          hEkeep _ (hnum _ (by simp [numerical_features]))]
    · rw [hs4self,
          hs3keep _ (by
            rw [hs2cols, hs1cols]
            exact hnum4 _ (by simp [numerical_features])) (by decide),
          hs2keep _ (by
            rw [hs1cols]
            exact hnum4 _ (by simp [numerical_features])) (by decide),
          hs1keep _ (hnum4 _ (by simp [numerical_features])) (by decide),
          hEkeep _ (hnum _ (by simp [numerical_features]))]
  · intro ce hce cell hcell
    have hce' := hce
    simp only [List.mem_cons, List.not_mem_nil, or_false] at hce'
    rcases hce' with rfl | rfl | rfl
    · rw [hseCol] at hcell
      rcases List.mem_map.1 hcell with ⟨n, _, hcn⟩
      exact ⟨n, hcn.symm⟩
    · rw [hieCol] at hcell
      rcases List.mem_map.1 hcell with ⟨n, _, hcn⟩
      exact ⟨n, hcn.symm⟩
    · rw [hxeCol] at hcell
      rcases List.mem_map.1 hcell with ⟨n, _, hcn⟩
      exact ⟨n, hcn.symm⟩

/-- Witness for C7 at the sample table. -/
theorem preprocess_frame_effect_witness :
    sampleDF.WF
    ∧ (∀ c ∈ numerical_features, c ∈ sampleDF.cols)
    ∧ (∀ c ∈ (["species_encoded", "island_encoded",
        "sex_encoded"] : List String), c ∉ sampleDF.cols)
    ∧ (preprocess_penguins_data (fun q => q) sampleDF).2.2.cols
        = sampleDF.cols
            ++ ["species_encoded", "island_encoded", "sex_encoded"] :=
  ⟨by decide, by decide, by decide,
    (preprocess_frame_effect (fun q => q) sampleDF (by decide) (by decide)
      (by decide) (by decide) (by decide) (by decide)).1⟩

/-! ## C10: the caller's frame is never mutated -/

/-- Store read after an unrelated write. -/
lemma getD_set_of_ne (l : List DataFrame) (i j : Nat) (a : DataFrame)
    (h : j ≠ i) :
    (l.set j a).getD i DataFrame.empty = l.getD i DataFrame.empty := by
  simp [List.getD_eq_getElem?_getD, List.getElem?_set_ne h]

/-- Store read below an extension. -/
lemma getD_append_of_lt (l1 l2 : List DataFrame) (i : Nat)
    (h : i < l1.length) :
    (l1 ++ l2).getD i DataFrame.empty = l1.getD i DataFrame.empty := by
  simp [List.getD_eq_getElem?_getD, List.getElem?_append_left h]

/-- Store read at a fresh write. -/
lemma getD_set_self_df (l : List DataFrame) (i : Nat) (a : DataFrame)
    (h : i < l.length) :
    (l.set i a).getD i DataFrame.empty = a := by
  simp [List.getD_eq_getElem?_getD, List.getElem?_set_eq_of_lt a h]

/-- C10: replaying the body of `preprocess_penguins_data` over an explicit
store of frames, the caller's frame is unchanged (the body works on the
copy made at its first line), the returned binding is a different cell,
and that cell holds exactly the functional `df_processed`. -/
theorem preprocess_no_caller_mutation (sqrtQ : ℚ → ℚ)
    (st : List DataFrame) (dfRef : Nat) (h : dfRef < st.length) :
    (preprocessProg sqrtQ st dfRef).1.getD dfRef DataFrame.empty
        = st.getD dfRef DataFrame.empty
    ∧ (preprocessProg sqrtQ st dfRef).2 ≠ dfRef
    ∧ (preprocessProg sqrtQ st dfRef).1.getD
          (preprocessProg sqrtQ st dfRef).2 DataFrame.empty
        = (preprocess_penguins_data sqrtQ
            (st.getD dfRef DataFrame.empty)).2.2 := by
  set df := st.getD dfRef DataFrame.empty with hdfdef
  have e1 : (st ++ [df]).getD st.length DataFrame.empty = df := by
    simp [List.getD_eq_getElem?_getD]
  have e2 : ((st ++ [df]) ++ [dropna df]).getD (st.length + 1)
      DataFrame.empty = dropna df := by
    have h1 : (st ++ [df]).length ≤ st.length + 1 := by simp
    rw [List.getD_eq_getElem?_getD, List.getElem?_append_right h1]
    simp
  have e3 : ∀ x : DataFrame,
      (((st ++ [df]) ++ [dropna df]).set (st.length + 1) x).getD
        (st.length + 1) DataFrame.empty = x := by
    intro x
    exact getD_set_self_df _ _ _ (by
      simp only [List.length_append, List.length_singleton]
      omega)
  have hr2 : (preprocessProg sqrtQ st dfRef).2 = st.length + 1 := by
    simp [preprocessProg]
  have hstore : (preprocessProg sqrtQ st dfRef).1
      = ((st ++ [df]) ++ [dropna df]).set (st.length + 1)
          (numerical_features.foldl (scaleStep sqrtQ)
            (encodeStep (encodeStep (encodeStep (dropna df) "species"
              "species_encoded") "island" "island_encoded") "sex"
              "sex_encoded")) := by
    simp only [preprocessProg, ← hdfdef]
    rw [e1]
    simp only [List.length_append, List.length_singleton]
    rw [e2]
    simp only [e3, List.set_set]
  refine ⟨?_, ?_, ?_⟩
  · rw [hstore, getD_set_of_ne _ _ _ _ (by omega),
      getD_append_of_lt _ _ _ (by
        simp only [List.length_append, List.length_singleton]
        omega),
      getD_append_of_lt _ _ _ h]
  · rw [hr2]
    omega
  · rw [hstore, hr2, getD_set_self_df _ _ _ (by
      simp only [List.length_append, List.length_singleton]
      omega)]
    simp only [preprocess_penguins_data]

/-- Witness for C10: a one-frame store holding the sample table. -/
theorem preprocess_no_caller_mutation_witness :
    (0 < ([sampleDF] : List DataFrame).length)
    ∧ (preprocessProg (fun q => q) [sampleDF] 0).1.getD 0 DataFrame.empty
        = ([sampleDF] : List DataFrame).getD 0 DataFrame.empty :=
  ⟨by decide,
    (preprocess_no_caller_mutation (fun q => q) [sampleDF] 0 (by decide)).1⟩
